import Mathlib

/-!
Verification of the GNSS-Raw-Measurements positioning engine specification.

The repository sources under version control here contain the Express server
(`server/server.js`) and the React data viewer (`gnss-data-viewer`); the
Python positioning engine they orchestrate (ephemeris store, orbit
propagation, epoch building, range correction, weighted least squares,
coordinate transform) is not part of the checked-in sources.  Definitions for
those components are therefore modelled from the specification's contracts,
as noted in their doc comments.  The server and viewer components are
embedded directly from the JavaScript source.

Numeric conventions: time-keeping, ephemeris bookkeeping and the observation
stream use exact rationals; the orbital mechanics, the coordinate transform
and the least-squares solver use real numbers.
-/

open scoped Matrix

/-! ## Observation data model (spec section 3, SatelliteObservation) -/

/-- Modelled from the spec: `SatelliteObservation` record produced by the
external parser (satellite id, constellation, epoch timestamp, raw
pseudorange in meters, CN0 in dB-Hz, Doppler shift in Hz). -/
structure SatObs where
  satId : ℕ
  constellation : String
  timestamp : ℚ
  pseudorange : ℚ
  cn0 : ℚ
  doppler : ℚ
deriving DecidableEq

/-! ## MeasurementEpochBuilder (spec section 4.3) -/

/-- Modelled from the spec: the `MeasurementEpochBuilder` grouping rule.  Two
observations belong to the same epoch iff their timestamps differ by less
than the gap threshold from the previous observation in stream order; an
out-of-order gap beyond the threshold also starts a new epoch. -/
def groupEpochs (thr : ℚ) : List SatObs → List (List SatObs)
  | [] => []
  | [o] => [[o]]
  | o :: o2 :: rest =>
    match groupEpochs thr (o2 :: rest) with
    | [] => [[o]]
    | g :: gs =>
      if |o2.timestamp - o.timestamp| < thr then (o :: g) :: gs
      else [o] :: g :: gs

/-! ## EphemerisStore (spec sections 3 and 4.1) -/

/-- Modelled from the spec: `EphemerisRecord` — satellite identifier,
constellation tag, reference time, Keplerian element set, harmonic
corrections, clock terms and validity window.  Immutable once loaded. -/
structure EphemerisRecord where
  satId : ℕ
  constellation : String
  refTime : ℚ
  sqrtA : ℚ
  ecc : ℚ
  i0 : ℚ
  omega0 : ℚ
  argPerigee : ℚ
  m0 : ℚ
  deltaN : ℚ
  iDot : ℚ
  omegaDot : ℚ
  cuc : ℚ
  cus : ℚ
  crc : ℚ
  crs : ℚ
  cic : ℚ
  cis : ℚ
  af0 : ℚ
  af1 : ℚ
  af2 : ℚ
  tgd : ℚ
  validFrom : ℚ
  validTo : ℚ
deriving DecidableEq

/-- Modelled from the spec: a record is applicable when it is for the asked
satellite and its validity window contains the transmit time. -/
def validForB (r : EphemerisRecord) (sid : ℕ) (t : ℚ) : Bool :=
  r.satId == sid && decide (r.validFrom ≤ t) && decide (t ≤ r.validTo)

/-- Distance from a record's reference time to a transmit time. -/
def tdist (r : EphemerisRecord) (t : ℚ) : ℚ := |r.refTime - t|

/-- Modelled from the spec: `EphemerisStore.lookup`.  The store is the list
of loaded records in load order (later elements are more recently loaded).
Among the records applicable at the transmit time the one with reference
time nearest the transmit time wins, ties broken in favor of the most
recently loaded record; with no applicable record the satellite is reported
`NotFound` (`none`).  Purely functional, hence side-effect free. -/
def lookup : List EphemerisRecord → ℕ → ℚ → Option EphemerisRecord
  | [], _, _ => none
  | r :: rest, sid, t =>
    match lookup rest sid t with
    | none => if validForB r sid t then some r else none
    | some b =>
      if validForB r sid t then
        if tdist b t ≤ tdist r t then some b else some r
      else some b

/-! ## Server `/run-gnss` handler (server/server.js lines 149-158) -/

/-- Immediate observable outcome of the `/run-gnss` POST handler: the HTTP
response sent synchronously (if any) and whether a processing subprocess was
spawned.  A successful spawn defers its HTTP response to the process close
callback, so the immediate response is absent in that case. -/
structure GnssRunResponse where
  status : Option ℕ
  errorBody : Option String
  spawned : Bool
deriving DecidableEq

/-- JavaScript truthiness test used by `if (!logFileName)`: an absent field
and the empty string are both falsy. -/
def isFalsyName : Option String → Bool
  | none => true
  | some s => s == ""

/-- Embedding of `app.post('/run-gnss')` from `server/server.js`: when the
request body carries no (truthy) `fileName` the handler responds 400 with
the error message and returns before spawning; otherwise it spawns the
processing subprocess and defers its response. -/
def runGnssHandler (fileName : Option String) : GnssRunResponse :=
  if isFalsyName fileName then
    { status := some 400, errorBody := some "No file name provided", spawned := false }
  else
    { status := none, errorBody := none, spawned := true }

/-! ## CSVReader constellation filter
(gnss-data-viewer/src/components/CSVReader.js lines 47-54) -/

/-- Row of the fetched CSV as the viewer holds it after cleaning: the
`Constellation` column (null after cleaning when the cell was empty) plus
the remaining cells, which the filter never inspects. -/
structure CsvRow where
  constellationCell : Option String
  otherCells : List (Option String)
deriving DecidableEq

/-- Embedding of the filtering effect in `CSVReaderComponent`: with a
non-empty selection, keep the rows whose `Constellation` cell is a member of
the selected list; with an empty selection show the data unchanged.  A null
cell is never a member of the (string) selection list. -/
def filterByConstellations (sel : List String) (data : List CsvRow) : List CsvRow :=
  if sel.length > 0 then
    data.filter (fun r =>
      match r.constellationCell with
      | some c => sel.contains c
      | none => false)
  else data

/-! ## RangeCorrector (spec section 4.4) -/

/-- Speed of light in m/s, as a real constant. -/
noncomputable def cLight : ℝ := 299792458

/-- Speed of light in m/s, as a rational constant for time bookkeeping. -/
def cLightQ : ℚ := 299792458

/-- Modelled from the spec: the weight policy of the `RangeCorrector` is an
explicit configuration choice between a CN0-based weight and an inverse
Doppler magnitude weight. -/
inductive WeightPolicy where
  | byCn0 : WeightPolicy
  | byDoppler : WeightPolicy
deriving DecidableEq

/-- Modelled from the spec: weight assigned by the configured policy — a
monotone function of CN0 (higher CN0, higher weight), or the inverse
magnitude of the Doppler shift (smaller Doppler, higher weight). -/
noncomputable def policyWeight (p : WeightPolicy) (o : SatObs) : ℝ :=
  match p with
  | .byCn0 => (o.cn0 : ℝ)
  | .byDoppler => 1 / |(o.doppler : ℝ)|

/-- Corrected per-satellite range together with its solver weight. -/
structure CorrectedRange where
  satId : ℕ
  range : ℝ
  weight : ℝ

/-- Modelled from the spec: `RangeCorrector.correct`.  Skips (returns
`none`) exactly when a provisional receiver estimate exists and the
satellite's elevation relative to it is negative; otherwise yields
`correctedRange = rawPseudorange + c * satelliteClockCorrection` and the
policy-determined weight. -/
noncomputable def correct (p : WeightPolicy) (o : SatObs) (satClock : ℝ)
    (elevation : Option ℝ) : Option CorrectedRange :=
  match elevation with
  | some el =>
    if el < 0 then none
    else some ⟨o.satId, (o.pseudorange : ℝ) + cLight * satClock, policyWeight p o⟩
  | none => some ⟨o.satId, (o.pseudorange : ℝ) + cLight * satClock, policyWeight p o⟩

/-! ## OrbitPropagator (spec section 4.2) -/

/-- Newton tolerance for the Kepler solve, `1e-12`. -/
noncomputable def keplerTol : ℝ := 1 / 1000000000000

/-- Fixed iteration cap for the Kepler Newton solve. -/
def keplerCap : ℕ := 30

/-- Kepler residual `f(Ek) = Ek - e * sin Ek - Mk`. -/
noncomputable def keplerF (e M Ek : ℝ) : ℝ := Ek - e * Real.sin Ek - M

/-- Derivative of the Kepler residual, `f'(Ek) = 1 - e * cos Ek`. -/
noncomputable def keplerFd (e Ek : ℝ) : ℝ := 1 - e * Real.cos Ek

/-- One Newton step `Ek - f(Ek) / f'(Ek)` for Kepler's equation. -/
noncomputable def newtonStep (e M Ek : ℝ) : ℝ :=
  Ek - keplerF e M Ek / keplerFd e Ek

/-- Modelled from the spec: the bounded Newton iteration solving Kepler's
equation, returning the eccentric anomaly reached together with the number
of Newton steps performed.  Stops when `|ΔEk| < 1e-12` or when the fuel is
exhausted. -/
noncomputable def keplerIter : ℕ → ℝ → ℝ → ℝ → ℝ × ℕ
  | 0, _, _, Ek => (Ek, 0)
  | n + 1, e, M, Ek =>
    let Ek1 := newtonStep e M Ek
    if |Ek1 - Ek| < keplerTol then (Ek1, 1)
    else ((keplerIter n e M Ek1).1, (keplerIter n e M Ek1).2 + 1)

/-- Modelled from the spec: the Kepler solve seeded at `Ek0 = Mk` with the
fixed iteration cap. -/
noncomputable def keplerSolve (e M : ℝ) : ℝ × ℕ := keplerIter keplerCap e M M

/-- WGS-84 gravitational parameter, m^3/s^2. -/
noncomputable def muEarth : ℝ := 398600500000000

/-- Earth rotation rate, rad/s. -/
noncomputable def omegaEarth : ℝ := 72921151467 / 1000000000000000

/-- Relativistic clock correction constant F, s/sqrt(m). -/
noncomputable def relCorrF : ℝ := -(4442807633 / 10000000000000000000)

/-- Half a GPS week in seconds. -/
noncomputable def halfWeek : ℝ := 302400

/-- Wrap a time difference to the nearest half-week boundary. -/
noncomputable def wrapTk (d : ℝ) : ℝ :=
  if d > halfWeek then d - 604800
  else if d < -halfWeek then d + 604800
  else d

/-- Four-quadrant arctangent. -/
noncomputable def atan2 (y x : ℝ) : ℝ :=
  if 0 < x then Real.arctan (y / x)
  else if x < 0 then
    (if 0 ≤ y then Real.arctan (y / x) + Real.pi else Real.arctan (y / x) - Real.pi)
  else
    (if 0 < y then Real.pi / 2 else if y < 0 then -(Real.pi / 2) else 0)

/-- Modelled from the spec: `OrbitPropagator.propagate` per the GPS
ICD-style orbit model.  Computes the wrapped time since the ephemeris
reference epoch, the corrected mean motion, the mean anomaly, solves
Kepler's equation by the bounded Newton iteration, derives the true
anomaly and argument of latitude, applies the second-harmonic corrections,
and rotates the in-plane coordinates into the Earth-fixed frame through the
corrected right ascension.  The clock correction is the broadcast
polynomial plus the relativistic term minus the group delay.  Returns
`none` (NotComputable) exactly when the record is malformed, i.e. its
semi-major-axis root is non-positive. -/
noncomputable def propagate (r : EphemerisRecord) (t : ℝ) :
    Option ((ℝ × ℝ × ℝ) × ℝ) :=
  if (r.sqrtA : ℝ) ≤ 0 then none
  else
    let A := ((r.sqrtA : ℝ)) ^ 2
    let n0 := Real.sqrt (muEarth / A ^ 3)
    let tk := wrapTk (t - (r.refTime : ℝ))
    let n := n0 + (r.deltaN : ℝ)
    let Mk := (r.m0 : ℝ) + n * tk
    let e := (r.ecc : ℝ)
    let Ek := (keplerSolve e Mk).1
    let vk := atan2 (Real.sqrt (1 - e ^ 2) * Real.sin Ek) (Real.cos Ek - e)
    let phik := vk + (r.argPerigee : ℝ)
    let du := (r.cus : ℝ) * Real.sin (2 * phik) + (r.cuc : ℝ) * Real.cos (2 * phik)
    let dr := (r.crs : ℝ) * Real.sin (2 * phik) + (r.crc : ℝ) * Real.cos (2 * phik)
    let di := (r.cis : ℝ) * Real.sin (2 * phik) + (r.cic : ℝ) * Real.cos (2 * phik)
    let uk := phik + du
    let rk := A * (1 - e * Real.cos Ek) + dr
    let ik := (r.i0 : ℝ) + di + (r.iDot : ℝ) * tk
    let xo := rk * Real.cos uk
    let yo := rk * Real.sin uk
    let Omk := (r.omega0 : ℝ) + ((r.omegaDot : ℝ) - omegaEarth) * tk
      - omegaEarth * (r.refTime : ℝ)
    let px := xo * Real.cos Omk - yo * Real.cos ik * Real.sin Omk
    let py := xo * Real.sin Omk + yo * Real.cos ik * Real.cos Omk
    let pz := yo * Real.sin ik
    let dtr := relCorrF * e * (r.sqrtA : ℝ) * Real.sin Ek
    let dts := (r.af0 : ℝ) + (r.af1 : ℝ) * tk + (r.af2 : ℝ) * tk ^ 2 + dtr - (r.tgd : ℝ)
    some ((px, py, pz), dts)

/-! ## CoordinateTransform (spec section 4.6) -/

/-- WGS-84 semi-major axis in meters. -/
noncomputable def wgsA : ℝ := 6378137

/-- WGS-84 flattening. -/
noncomputable def wgsF : ℝ := 1000000000 / 298257223563

/-- WGS-84 semi-minor axis. -/
noncomputable def wgsB : ℝ := wgsA * (1 - wgsF)

/-- WGS-84 first eccentricity squared. -/
noncomputable def wgsE2 : ℝ := wgsF * (2 - wgsF)

/-- WGS-84 second eccentricity squared. -/
noncomputable def wgsEp2 : ℝ := wgsE2 / (1 - wgsE2)

/-- Modelled from the spec: `CoordinateTransform.toGeodetic` by Bowring's
method against the WGS-84 ellipsoid.  The zero vector is explicitly
rejected (`none`); every other input yields a geodetic
latitude/longitude/altitude triple (radians and meters). -/
noncomputable def toGeodetic (x y z : ℝ) : Option (ℝ × ℝ × ℝ) :=
  if x = 0 ∧ y = 0 ∧ z = 0 then none
  else
    let p := Real.sqrt (x ^ 2 + y ^ 2)
    let theta := atan2 (z * wgsA) (p * wgsB)
    let lat := atan2 (z + wgsEp2 * wgsB * Real.sin theta ^ 3)
      (p - wgsE2 * wgsA * Real.cos theta ^ 3)
    let lon := atan2 y x
    let nrad := wgsA / Real.sqrt (1 - wgsE2 * Real.sin lat ^ 2)
    let alt := p / Real.cos lat - nrad
    some (lat, lon, alt)

/-- Modelled from the spec: the forward geodetic-to-ECEF transform on the
WGS-84 ellipsoid, used for the round-trip property. -/
noncomputable def geodeticToEcef (lat lon h : ℝ) : ℝ × ℝ × ℝ :=
  let nrad := wgsA / Real.sqrt (1 - wgsE2 * Real.sin lat ^ 2)
  ((nrad + h) * Real.cos lat * Real.cos lon,
   (nrad + h) * Real.cos lat * Real.sin lon,
   (nrad * (1 - wgsE2) + h) * Real.sin lat)

/-! ## WeightedLeastSquaresSolver (spec section 4.5) -/

/-- Per-satellite solver input: Earth-fixed satellite position, corrected
range and corrector-assigned weight. -/
structure SatRange where
  pos : ℝ × ℝ × ℝ
  range : ℝ
  weight : ℝ

/-- Modelled from the spec: `ReceiverSolution` — Earth-fixed x/y/z, clock
bias, achieved RMS residual, count of satellites used, convergence flag and
iteration count. -/
structure ReceiverSolution where
  x : ℝ
  y : ℝ
  z : ℝ
  clockBias : ℝ
  rms : ℝ
  satCount : ℕ
  convergence : Bool
  iterations : ℕ

/-- Convergence threshold on the position update norm, `1e-4` meters. -/
noncomputable def convTol : ℝ := 1 / 10000

/-- Maximum Gauss-Newton iteration count. -/
def gnCap : ℕ := 20

/-- Earth-centered seed for the solver state `[x, y, z, clockBias]`. -/
def seedState : Fin 4 → ℝ := fun _ => 0

/-- Geometric distance from the current receiver estimate to a satellite
position. -/
noncomputable def geomDist (st : Fin 4 → ℝ) (p : ℝ × ℝ × ℝ) : ℝ :=
  Real.sqrt ((p.1 - st 0) ^ 2 + (p.2.1 - st 1) ^ 2 + (p.2.2 - st 2) ^ 2)

/-- Jacobian (geometry) row: negated unit line-of-sight vector concatenated
with 1 for the clock bias. -/
noncomputable def losRow (st : Fin 4 → ℝ) (s : SatRange) : Fin 4 → ℝ :=
  let d := geomDist st s.pos
  ![-((s.pos.1 - st 0) / d), -((s.pos.2.1 - st 1) / d), -((s.pos.2.2 - st 2) / d), 1]

/-- Residual of one satellite at the current estimate:
`correctedRange - (geometric distance + clock bias)`. -/
noncomputable def residualOf (st : Fin 4 → ℝ) (s : SatRange) : ℝ :=
  s.range - (geomDist st s.pos + st 3)

/-- Weighted normal-equations matrix `Aᵀ W A` of one Gauss-Newton step. -/
noncomputable def normalMatrix (sats : List SatRange) (st : Fin 4 → ℝ) :
    Matrix (Fin 4) (Fin 4) ℝ :=
  (sats.map (fun s => s.weight • Matrix.vecMulVec (losRow st s) (losRow st s))).sum

/-- Weighted normal-equations right-hand side `Aᵀ W r`. -/
noncomputable def normalRhs (sats : List SatRange) (st : Fin 4 → ℝ) : Fin 4 → ℝ :=
  (sats.map (fun s => (s.weight * residualOf st s) • losRow st s)).sum

/-- Outcome of one bounded Gauss-Newton attempt: a final state with its
convergence flag and iteration count, or an abort on a singular
normal-equations matrix carrying the iterate reached. -/
inductive GNOutcome where
  | done : (Fin 4 → ℝ) → Bool → ℕ → GNOutcome
  | singular : (Fin 4 → ℝ) → GNOutcome

open Classical in
/-- Modelled from the spec: the bounded Gauss-Newton loop of the
`WeightedLeastSquaresSolver`.  Each iteration forms the weighted normal
equations; a singular matrix aborts the attempt (observable outcome), a
regular one is solved for the update, and the loop stops when the position
update norm falls under the convergence threshold or the iteration cap is
reached. -/
noncomputable def gnLoop : ℕ → List SatRange → (Fin 4 → ℝ) → GNOutcome
  | 0, _, st => .done st false 0
  | n + 1, sats, st =>
    let nm := normalMatrix sats st
    if nm.det = 0 then .singular st
    else
      let upd := nm⁻¹ *ᵥ normalRhs sats st
      let st1 := fun i => st i + upd i
      if Real.sqrt (upd 0 ^ 2 + upd 1 ^ 2 + upd 2 ^ 2) < convTol then .done st1 true 1
      else
        match gnLoop n sats st1 with
        | .done s c k => .done s c (k + 1)
        | .singular s => .singular s

open Classical in
/-- Modelled from the spec: drop the lowest-weight satellite (the first one
whose weight is minimal) before the singularity retry. -/
noncomputable def dropLowest : List SatRange → List SatRange
  | [] => []
  | s :: rest =>
    if ∀ s' ∈ rest, s.weight ≤ s'.weight then rest
    else s :: dropLowest rest

/-- Weighted RMS residual over the satellites used. -/
noncomputable def rmsOf (sats : List SatRange) (st : Fin 4 → ℝ) : ℝ :=
  Real.sqrt ((sats.map (fun s => s.weight * residualOf st s ^ 2)).sum / sats.length)

/-- Package a solver state as a `ReceiverSolution`. -/
noncomputable def mkSolution (sats : List SatRange) (st : Fin 4 → ℝ)
    (conv : Bool) (iters : ℕ) : ReceiverSolution :=
  { x := st 0, y := st 1, z := st 2, clockBias := st 3,
    rms := rmsOf sats st, satCount := sats.length,
    convergence := conv, iterations := iters }

/-- Modelled from the spec: `WeightedLeastSquaresSolver.solve`.  Runs the
bounded Gauss-Newton attempt; on a singular normal-equations matrix it
drops the lowest-weight satellite and retries exactly once, and if the
retry is still singular it returns a solution with `convergence = false`
carrying the best iterate reached — singularity is an explicit observable
outcome, never an exception or a silent degenerate value. -/
noncomputable def wlsSolve (sats : List SatRange) : ReceiverSolution :=
  match gnLoop gnCap sats seedState with
  | .done st c k => mkSolution sats st c k
  | .singular st =>
    match gnLoop gnCap (dropLowest sats) st with
    | .done st2 c k => mkSolution (dropLowest sats) st2 c k
    | .singular st2 => mkSolution (dropLowest sats) st2 false gnCap

/-! ## Per-epoch processing (spec sections 3, 4.4 and 7) -/

/-- Modelled from the spec: an `Epoch` — a timestamp plus the observations
grouped at it. -/
structure Epoch where
  epochTime : ℚ
  obs : List SatObs

/-- Transmit time of an observation: received time minus signal travel
time. -/
def transmitTimeOf (o : SatObs) : ℚ := o.timestamp - o.pseudorange / cLightQ

/-- Elevation indicator of a satellite relative to a provisional receiver
estimate: the inner product of the receiver-to-satellite vector with the
local up direction (the receiver position vector); its sign matches the
sign of the elevation angle, which is all the corrector's skip rule
consumes. -/
noncomputable def elevationOf (est : ℝ × ℝ × ℝ) (satPos : ℝ × ℝ × ℝ) : ℝ :=
  (satPos.1 - est.1) * est.1 + (satPos.2.1 - est.2.1) * est.2.1 +
    (satPos.2.2 - est.2.2) * est.2.2

/-- Modelled from the spec: turn one observation into a solver input.  The
satellite is dropped (`none`) when the ephemeris lookup fails
(MissingEphemerisError), when the record is malformed
(MalformedEphemerisError), or when the corrector skips it. -/
noncomputable def processObs (store : List EphemerisRecord) (p : WeightPolicy)
    (est : Option (ℝ × ℝ × ℝ)) (o : SatObs) : Option SatRange :=
  match lookup store o.satId (transmitTimeOf o) with
  | none => none
  | some eph =>
    match propagate eph ((transmitTimeOf o : ℚ) : ℝ) with
    | none => none
    | some (pos, clk) =>
      match correct p o clk (est.map (fun r => elevationOf r pos)) with
      | none => none
      | some cr => some { pos := pos, range := cr.range, weight := cr.weight }

/-- Modelled from the spec: per-epoch processing.  An epoch produces a
`ReceiverSolution` only if at least 4 satellites have both a valid
ephemeris and a corrected range; otherwise it yields an explicit absent
result (InsufficientSatellitesError is not fatal). -/
noncomputable def processEpoch (store : List EphemerisRecord) (p : WeightPolicy)
    (est : Option (ℝ × ℝ × ℝ)) (ep : Epoch) : Option ReceiverSolution :=
  let usable := ep.obs.filterMap (processObs store p est)
  if 4 ≤ usable.length then some (wlsSolve usable) else none

/-- Modelled from the spec: processing a batch continues to the next epoch
whatever each epoch yields. -/
noncomputable def processAllEpochs (store : List EphemerisRecord) (p : WeightPolicy)
    (est : Option (ℝ × ℝ × ℝ)) (eps : List Epoch) : List (Option ReceiverSolution) :=
  eps.map (processEpoch store p est)

/-! ## Claim theorems: server and viewer (C9, C10) -/

/-- C9: the `/run-gnss` POST handler, when the request body contains no
file name, responds with HTTP status 400 and the error message
`No file name provided` and returns without spawning any child process; a
processing subprocess is spawned exactly when a file name is present. -/
theorem runGnss_no_filename_rejected :
    ∀ fn : Option String,
      ((runGnssHandler fn).status = some 400 ↔ isFalsyName fn = true) ∧
      ((runGnssHandler fn).spawned = true ↔ isFalsyName fn = false) ∧
      (isFalsyName fn = true →
        (runGnssHandler fn).errorBody = some "No file name provided" ∧
        (runGnssHandler fn).spawned = false) := by
  intro fn
  unfold runGnssHandler
  by_cases h : isFalsyName fn = true <;> simp [h]

/-- C9 witness: a request with no file name gets the 400 error body and no
spawn. -/
theorem runGnss_no_filename_rejected_witness :
    (runGnssHandler none).errorBody = some "No file name provided" ∧
    (runGnssHandler none).spawned = false :=
  (runGnss_no_filename_rejected none).2.2 rfl

/-- Sample viewer row with constellation tag G. -/
def rowG : CsvRow := { constellationCell := some "G", otherCells := [some "sat1"] }

/-- Sample viewer row with constellation tag R. -/
def rowR : CsvRow := { constellationCell := some "R", otherCells := [some "sat2"] }

/-- C10: the displayed (filtered) viewer data is a sub-list of the fetched
data (original order preserved); an empty constellation selection shows the
data unchanged, and a non-empty selection keeps exactly the rows whose
Constellation cell is a member of the selection. -/
theorem csvFilter_pointwise :
    ∀ (sel : List String) (data : List CsvRow),
      (filterByConstellations sel data).Sublist data ∧
      (sel = [] → filterByConstellations sel data = data) ∧
      (sel ≠ [] → ∀ r : CsvRow, r ∈ filterByConstellations sel data ↔
        r ∈ data ∧ ∃ c, r.constellationCell = some c ∧ c ∈ sel) := by
  intro sel data
  refine ⟨?_, ?_, ?_⟩
  · unfold filterByConstellations
    split
    · exact List.filter_sublist data
    · exact List.Sublist.refl data
  · intro h
    subst h
    simp [filterByConstellations]
  · intro h r
    have hlen : sel.length > 0 := List.length_pos.mpr h
    unfold filterByConstellations
    rw [if_pos hlen, List.mem_filter]
    constructor
    · rintro ⟨hmem, hpred⟩
      refine ⟨hmem, ?_⟩
      rcases hc : r.constellationCell with _ | c
      · rw [hc] at hpred
        simp at hpred
      · rw [hc] at hpred
        simp only [List.elem_iff] at hpred
        exact ⟨c, rfl, hpred⟩
    · rintro ⟨hmem, c, hc, hcin⟩
      refine ⟨hmem, ?_⟩
      rw [hc]
      simpa [List.elem_iff] using hcin

/-- C10 witness: with selection [G], of the two sample rows exactly the G
row is displayed. -/
theorem csvFilter_pointwise_witness :
    rowG ∈ filterByConstellations ["G"] [rowG, rowR] ∧
    ¬ rowR ∈ filterByConstellations ["G"] [rowG, rowR] := by
  have h := (csvFilter_pointwise ["G"] [rowG, rowR]).2.2 (by simp)
  constructor
  · exact (h rowG).mpr ⟨by simp, "G", rfl, by simp⟩
  · intro hmem
    rcases ((h rowR).mp hmem).2 with ⟨c, hc, hcin⟩
    simp [rowR] at hc
    subst hc
    simp at hcin

/-! ## Claim theorem: propagation determinism (C7) -/

/-- C7: `OrbitPropagator.propagate` is a deterministic pure function — in
this embedding it is a mathematical function of the ephemeris record and
the transmit time, so two applications to identical inputs are identical
outputs. -/
theorem propagate_deterministic :
    ∀ (r : EphemerisRecord) (t : ℝ), propagate r t = propagate r t :=
  fun _ _ => rfl

/-! ## Claim theorem: range correction and weight policy (C6) -/

/-- C6: every observation the corrector does not skip yields
`correctedRange = rawPseudorange + c * satelliteClockCorrection` and the
policy-determined weight; the CN0 policy weight is strictly increasing in
CN0 and the Doppler policy weight strictly decreasing in the Doppler
magnitude. -/
theorem correct_range_and_weight :
    (∀ (p : WeightPolicy) (o : SatObs) (clk : ℝ) (elev : Option ℝ)
        (cr : CorrectedRange), correct p o clk elev = some cr →
      cr.range = (o.pseudorange : ℝ) + cLight * clk ∧
      cr.weight = policyWeight p o) ∧
    (∀ o o' : SatObs, o.cn0 < o'.cn0 →
      policyWeight .byCn0 o < policyWeight .byCn0 o') ∧
    (∀ o o' : SatObs, 0 < |o.doppler| → |o.doppler| < |o'.doppler| →
      policyWeight .byDoppler o' < policyWeight .byDoppler o) := by
  refine ⟨?_, ?_, ?_⟩
  · intro p o clk elev cr h
    cases elev with
    | none =>
      simp only [correct, Option.some.injEq] at h
      subst h
      exact ⟨rfl, rfl⟩
    | some el =>
      simp only [correct] at h
      split at h
      · exact absurd h (by simp)
      · simp only [Option.some.injEq] at h
        subst h
        exact ⟨rfl, rfl⟩
  · intro o o' hlt
    simp only [policyWeight]
    exact_mod_cast hlt
  · intro o o' h0 hlt
    simp only [policyWeight]
    have h0R : (0 : ℝ) < |(o.doppler : ℝ)| := by
      rw [← Rat.cast_abs]
      exact_mod_cast h0
    have hltR : |(o.doppler : ℝ)| < |(o'.doppler : ℝ)| := by
      rw [← Rat.cast_abs, ← Rat.cast_abs]
      exact_mod_cast hlt
    exact one_div_lt_one_div_of_lt h0R hltR

/-- Sample observation with low CN0 and small Doppler magnitude. -/
def obsLo : SatObs :=
  { satId := 7, constellation := "G", timestamp := 10,
    pseudorange := 20000000, cn0 := 30, doppler := 100 }

/-- Sample observation with higher CN0 and larger Doppler magnitude. -/
def obsHi : SatObs :=
  { satId := 8, constellation := "G", timestamp := 10,
    pseudorange := 21000000, cn0 := 45, doppler := -400 }

/-- C6 witness: on a concrete unskipped observation the corrected range is
the pseudorange plus `c` times the clock correction, and both weight-policy
monotonicities hold on the sample pair. -/
theorem correct_range_and_weight_witness :
    ((correct .byCn0 obsLo (1 / 1000) none).map CorrectedRange.range =
      some ((obsLo.pseudorange : ℝ) + cLight * (1 / 1000))) ∧
    policyWeight .byCn0 obsLo < policyWeight .byCn0 obsHi ∧
    policyWeight .byDoppler obsHi < policyWeight .byDoppler obsLo := by
  refine ⟨?_, ?_, ?_⟩
  · have h := (correct_range_and_weight.1 .byCn0 obsLo (1 / 1000) none
      ⟨obsLo.satId, (obsLo.pseudorange : ℝ) + cLight * (1 / 1000),
        policyWeight .byCn0 obsLo⟩ rfl).1
    simp [correct, h]
  · exact correct_range_and_weight.2.1 obsLo obsHi (by norm_num [obsLo, obsHi])
  · exact correct_range_and_weight.2.2 obsLo obsHi (by norm_num [obsLo])
      (by norm_num [obsLo, obsHi])

/-! ## Claim theorem: epoch grouping (C4) -/

/-- Relation holding when the later observation is within the gap threshold
of the previous observation in stream order. -/
def sameEpochRel (thr : ℚ) (a b : SatObs) : Prop := |b.timestamp - a.timestamp| < thr

/-- Relation between successive epochs: the first observation of the later
epoch is at least the gap threshold away from the last observation of the
earlier epoch. -/
def epochBoundaryRel (thr : ℚ) (g1 g2 : List SatObs) : Prop :=
  ∀ a ∈ g1.getLast?, ∀ b ∈ g2.head?, thr ≤ |b.timestamp - a.timestamp|

lemma groupEpochs_cons_cons (thr : ℚ) (o o2 : SatObs) (rest : List SatObs) :
    groupEpochs thr (o :: o2 :: rest) =
      match groupEpochs thr (o2 :: rest) with
      | [] => [[o]]
      | g :: gs =>
        if |o2.timestamp - o.timestamp| < thr then (o :: g) :: gs
        else [o] :: g :: gs := rfl

lemma groupEpochs_cons_shape (thr : ℚ) (o : SatObs) (t : List SatObs) :
    ∃ g gs, groupEpochs thr (o :: t) = (o :: g) :: gs := by
  induction t generalizing o with
  | nil => exact ⟨[], [], rfl⟩
  | cons o2 rest ih =>
    obtain ⟨g, gs, hg⟩ := ih o2
    rw [groupEpochs_cons_cons, hg]
    by_cases hc : |o2.timestamp - o.timestamp| < thr
    · exact ⟨o2 :: g, gs, by simp [hc]⟩
    · exact ⟨[], (o2 :: g) :: gs, by simp [hc]⟩

lemma groupEpochs_flatten (thr : ℚ) (l : List SatObs) :
    (groupEpochs thr l).flatten = l := by
  induction l with
  | nil => rfl
  | cons o t ih =>
    cases t with
    | nil => rfl
    | cons o2 rest =>
      rw [groupEpochs_cons_cons]
      obtain ⟨g, gs, hg⟩ := groupEpochs_cons_shape thr o2 rest
      rw [hg] at ih ⊢
      by_cases hc : |o2.timestamp - o.timestamp| < thr
      · simpa [hc] using ih
      · simpa [hc] using ih

lemma groupEpochs_groups (thr : ℚ) (l : List SatObs) :
    ∀ g ∈ groupEpochs thr l, g ≠ [] ∧ g.Chain' (sameEpochRel thr) := by
  induction l with
  | nil => intro g hg; simp [groupEpochs] at hg
  | cons o t ih =>
    cases t with
    | nil =>
      intro g hg
      simp only [groupEpochs, List.mem_singleton] at hg
      subst hg
      exact ⟨by simp, by simp⟩
    | cons o2 rest =>
      intro g hg
      rw [groupEpochs_cons_cons] at hg
      obtain ⟨g0, gs, hg0⟩ := groupEpochs_cons_shape thr o2 rest
      rw [hg0] at hg
      by_cases hc : |o2.timestamp - o.timestamp| < thr
      · simp only [if_pos hc, List.mem_cons] at hg
        rcases hg with hg | hg
        · subst hg
          have h0 := ih (o2 :: g0) (by rw [hg0]; exact List.mem_cons_self _ _)
          refine ⟨by simp, ?_⟩
          rw [List.chain'_cons]
          exact ⟨hc, h0.2⟩
        · exact ih g (by rw [hg0]; exact List.mem_cons_of_mem _ hg)
      · simp only [if_neg hc, List.mem_cons] at hg
        rcases hg with hg | hg | hg
        · subst hg
          exact ⟨by simp, by simp⟩
        · subst hg
          exact ih _ (by rw [hg0]; exact List.mem_cons_self _ _)
        · exact ih g (by rw [hg0]; exact List.mem_cons_of_mem _ hg)

lemma groupEpochs_boundary (thr : ℚ) (l : List SatObs) :
    (groupEpochs thr l).Chain' (epochBoundaryRel thr) := by
  induction l with
  | nil => simp [groupEpochs]
  | cons o t ih =>
    cases t with
    | nil => simp [groupEpochs]
    | cons o2 rest =>
      rw [groupEpochs_cons_cons]
      obtain ⟨g0, gs, hg0⟩ := groupEpochs_cons_shape thr o2 rest
      rw [hg0] at ih ⊢
      by_cases hc : |o2.timestamp - o.timestamp| < thr
      · simp only [if_pos hc]
        rw [List.chain'_cons'] at ih ⊢
        refine ⟨?_, ih.2⟩
        intro g2 hg2
        have hb := ih.1 g2 hg2
        intro a ha b hb2
        refine hb a ?_ b hb2
        rwa [List.getLast?_cons_cons] at ha
      · simp only [if_neg hc]
        rw [List.chain'_cons]
        refine ⟨?_, ih⟩
        intro a ha b hb
        simp only [List.getLast?_singleton, Option.mem_def, Option.some.injEq] at ha
        subst ha
        simp only [List.head?_cons, Option.mem_def, Option.some.injEq] at hb
        subst hb
        exact le_of_not_lt hc

/-- Observation at a given timestamp for the grouping example. -/
def obsAt (i : ℕ) (t : ℚ) : SatObs :=
  { satId := i, constellation := "G", timestamp := t,
    pseudorange := 20000000, cn0 := 40, doppler := 100 }

/-- C4: the epoch builder partitions the stream (the groups flatten back to
the input in order), every group is nonempty and consecutive observations
inside a group are within the gap threshold of their predecessor, while the
first observation of each following group is at least the threshold away
from the last observation of the previous group; on the stream at
timestamps [0, 0.2, 0.4, 1.6, 1.8] with a 1-second threshold this yields
exactly the two epochs {0, 0.2, 0.4} and {1.6, 1.8}. -/
theorem epoch_grouping :
    (∀ (thr : ℚ) (l : List SatObs),
      (groupEpochs thr l).flatten = l ∧
      (∀ g ∈ groupEpochs thr l, g ≠ [] ∧ g.Chain' (sameEpochRel thr)) ∧
      (groupEpochs thr l).Chain' (epochBoundaryRel thr)) ∧
    groupEpochs 1
        [obsAt 1 0, obsAt 2 (1/5), obsAt 3 (2/5), obsAt 4 (8/5), obsAt 5 (9/5)] =
      [[obsAt 1 0, obsAt 2 (1/5), obsAt 3 (2/5)], [obsAt 4 (8/5), obsAt 5 (9/5)]] := by
  constructor
  · intro thr l
    exact ⟨groupEpochs_flatten thr l, groupEpochs_groups thr l,
      groupEpochs_boundary thr l⟩
  · have h1 : |(1:ℚ)/5| < 1 := by rw [abs_of_nonneg] <;> norm_num
    have h6 : ¬ |(6:ℚ)/5| < 1 := by rw [abs_of_nonneg] <;> norm_num
    norm_num [groupEpochs, obsAt, h1, h6]

/-- C4 witness: the grouping properties applied to the concrete example —
the first produced epoch is nonempty and chained under the 1-second
threshold. -/
theorem epoch_grouping_witness :
    [obsAt 1 0, obsAt 2 (1/5), obsAt 3 (2/5)] ≠ ([] : List SatObs) ∧
    ([obsAt 1 0, obsAt 2 (1/5), obsAt 3 (2/5)]).Chain' (sameEpochRel 1) := by
  refine (epoch_grouping.1 1
    [obsAt 1 0, obsAt 2 (1/5), obsAt 3 (2/5), obsAt 4 (8/5), obsAt 5 (9/5)]).2.1
    [obsAt 1 0, obsAt 2 (1/5), obsAt 3 (2/5)] ?_
  rw [epoch_grouping.2]
  exact List.mem_cons_self _ _

/-! ## Claim theorem: ephemeris lookup (C5) -/

lemma lookup_cons (r : EphemerisRecord) (rest : List EphemerisRecord)
    (sid : ℕ) (t : ℚ) :
    lookup (r :: rest) sid t =
      match lookup rest sid t with
      | none => if validForB r sid t then some r else none
      | some b =>
        if validForB r sid t then
          if tdist b t ≤ tdist r t then some b else some r
        else some b := rfl

/-- C5: the store lookup returns `NotFound` exactly when no loaded record
for the satellite has a validity window containing the transmit time; a
returned record is a loaded, applicable record whose reference time is
nearest the transmit time among all applicable records, and every
applicable record loaded after it is strictly farther — so ties are broken
in favor of the most recently loaded record.  `lookup` is a pure function
of the store snapshot. -/
theorem ephemeris_lookup_nearest :
    ∀ (store : List EphemerisRecord) (sid : ℕ) (t : ℚ),
      ((lookup store sid t = none) ↔ ∀ r ∈ store, validForB r sid t = false) ∧
      (∀ r, lookup store sid t = some r →
        r ∈ store ∧ validForB r sid t = true ∧
        (∀ r' ∈ store, validForB r' sid t = true → tdist r t ≤ tdist r' t) ∧
        ∃ pre post, store = pre ++ r :: post ∧
          ∀ r' ∈ post, validForB r' sid t = true → tdist r t < tdist r' t) := by
  intro store sid t
  induction store with
  | nil => exact ⟨by simp [lookup], by intro r h; simp [lookup] at h⟩
  | cons r rest ih =>
    rcases hrest : lookup rest sid t with _ | b
    · have hall : ∀ r' ∈ rest, validForB r' sid t = false := (ih.1).mp hrest
      by_cases hv : validForB r sid t = true
      · constructor
        · rw [lookup_cons, hrest]
          simp only [if_pos hv]
          constructor
          · intro h; exact absurd h (by simp)
          · intro h
            exact absurd (h r (List.mem_cons_self _ _)) (by simp [hv])
        · intro r0 h0
          rw [lookup_cons, hrest] at h0
          simp only [if_pos hv, Option.some.injEq] at h0
          subst h0
          refine ⟨List.mem_cons_self _ _, hv, ?_, [], rest, rfl, ?_⟩
          · intro r' hr' hv'
            rcases List.mem_cons.mp hr' with h | h
            · subst h; exact le_refl _
            · exact absurd hv' (by simp [hall r' h])
          · intro r' hr' hv'
            exact absurd hv' (by simp [hall r' hr'])
      · have hv' : validForB r sid t = false := by
          cases hvv : validForB r sid t
          · rfl
          · exact absurd hvv hv
        constructor
        · rw [lookup_cons, hrest]
          simp only [hv', if_neg (by simp : ¬ (false = true))]
          constructor
          · intro _ r0 h0
            rcases List.mem_cons.mp h0 with h | h
            · subst h; exact hv'
            · exact hall r0 h
          · intro _; trivial
        · intro r0 h0
          rw [lookup_cons, hrest] at h0
          simp [hv'] at h0
    · obtain ⟨hbmem, hbv, hbmin, pre0, post0, hsplit, hblast⟩ := ih.2 b hrest
      by_cases hv : validForB r sid t = true
      · by_cases hd : tdist b t ≤ tdist r t
        · constructor
          · rw [lookup_cons, hrest]
            simp only [if_pos hv, if_pos hd]
            constructor
            · intro h; exact absurd h (by simp)
            · intro h
              exact absurd (h b (List.mem_cons_of_mem _ hbmem)) (by simp [hbv])
          · intro r0 h0
            rw [lookup_cons, hrest] at h0
            simp only [if_pos hv, if_pos hd, Option.some.injEq] at h0
            subst h0
            refine ⟨List.mem_cons_of_mem _ hbmem, hbv, ?_, r :: pre0, post0, by
              rw [hsplit, List.cons_append], hblast⟩
            intro r' hr' hvv
            rcases List.mem_cons.mp hr' with h | h
            · subst h; exact hd
            · exact hbmin r' h hvv
        · push_neg at hd
          constructor
          · rw [lookup_cons, hrest]
            simp only [if_pos hv, if_neg (not_le.mpr hd)]
            constructor
            · intro h; exact absurd h (by simp)
            · intro h
              exact absurd (h r (List.mem_cons_self _ _)) (by simp [hv])
          · intro r0 h0
            rw [lookup_cons, hrest] at h0
            simp only [if_pos hv, if_neg (not_le.mpr hd), Option.some.injEq] at h0
            subst h0
            refine ⟨List.mem_cons_self _ _, hv, ?_, [], rest, rfl, ?_⟩
            · intro r' hr' hvv
              rcases List.mem_cons.mp hr' with h | h
              · subst h; exact le_refl _
              · exact le_trans (le_of_lt hd) (hbmin r' h hvv)
            · intro r' hr' hvv
              exact lt_of_lt_of_le hd (hbmin r' hr' hvv)
      · have hvf : validForB r sid t = false := by
          cases hvv : validForB r sid t
          · rfl
          · exact absurd hvv hv
        constructor
        · rw [lookup_cons, hrest]
          simp only [hvf, if_neg (by simp : ¬ (false = true))]
          constructor
          · intro h; exact absurd h (by simp)
          · intro h
            exact absurd (h b (List.mem_cons_of_mem _ hbmem)) (by simp [hbv])
        · intro r0 h0
          rw [lookup_cons, hrest] at h0
          simp only [hvf, if_neg (by simp : ¬ (false = true)),
            Option.some.injEq] at h0
          subst h0
          refine ⟨List.mem_cons_of_mem _ hbmem, hbv, ?_, r :: pre0, post0, by
            rw [hsplit, List.cons_append], hblast⟩
          intro r' hr' hvv
          rcases List.mem_cons.mp hr' with h | h
          · subst h; exact absurd hvv (by simp [hvf])
          · exact hbmin r' h hvv

/-- Ephemeris record with the given satellite, reference time and validity
window, and benign orbital and clock terms. -/
def mkEph (sid : ℕ) (tref lo hi : ℚ) : EphemerisRecord :=
  { satId := sid, constellation := "G", refTime := tref, sqrtA := 5153,
    ecc := 1/100, i0 := 1, omega0 := 0, argPerigee := 0, m0 := 0,
    deltaN := 0, iDot := 0, omegaDot := 0, cuc := 0, cus := 0, crc := 0,
    crs := 0, cic := 0, cis := 0, af0 := 0, af1 := 0, af2 := 0, tgd := 0,
    validFrom := lo, validTo := hi }

/-- Earlier-loaded record at reference time 10. -/
def ephA : EphemerisRecord := mkEph 1 10 0 20

/-- Later-loaded record at reference time 12, equally far from transmit
time 11. -/
def ephB : EphemerisRecord := mkEph 1 12 0 20

lemma lookup_pair_eval : lookup [ephA, ephB] 1 11 = some ephB := by
  have hvB : validForB ephB 1 11 = true := by
    simp only [validForB, ephB, mkEph]
    norm_num
  have hvA : validForB ephA 1 11 = true := by
    simp only [validForB, ephA, mkEph]
    norm_num
  have htd : tdist ephB 11 ≤ tdist ephA 11 := by
    simp only [tdist, ephA, ephB, mkEph]
    norm_num
  rw [lookup_cons, lookup_cons]
  simp only [lookup, hvA, hvB, if_pos, htd]

/-- C5 witness: on a two-record store where both records are applicable and
equally near the transmit time, lookup returns the most recently loaded
one, which is applicable and nearest. -/
theorem ephemeris_lookup_nearest_witness :
    ephB ∈ [ephA, ephB] ∧ validForB ephB 1 11 = true ∧
    tdist ephB 11 ≤ tdist ephA 11 := by
  have h := (ephemeris_lookup_nearest [ephA, ephB] 1 11).2 ephB lookup_pair_eval
  exact ⟨h.1, h.2.1, h.2.2.1 ephA (List.mem_cons_self _ _) (by
    simp only [validForB, ephA, mkEph]; norm_num)⟩

/-! ## Claim theorem: minimum-satellite gate (C2) -/

/-- C2: an epoch produces a `ReceiverSolution` exactly when at least 4 of
its observations survive the usability pipeline (valid ephemeris found,
record well-formed, corrector did not skip); with exactly 3 usable
satellites the epoch yields the explicit absent result, with exactly 4 a
solution is attempted, and batch processing always continues through every
epoch. -/
theorem epoch_min_satellites :
    ∀ (store : List EphemerisRecord) (p : WeightPolicy)
      (est : Option (ℝ × ℝ × ℝ)) (ep : Epoch),
      ((processEpoch store p est ep).isSome ↔
        4 ≤ (ep.obs.filterMap (processObs store p est)).length) ∧
      ((ep.obs.filterMap (processObs store p est)).length = 3 →
        processEpoch store p est ep = none) ∧
      ((ep.obs.filterMap (processObs store p est)).length = 4 →
        processEpoch store p est ep =
          some (wlsSolve (ep.obs.filterMap (processObs store p est)))) ∧
      (∀ eps : List Epoch, (processAllEpochs store p est eps).length = eps.length) := by
  intro store p est ep
  refine ⟨?_, ?_, ?_, ?_⟩
  · unfold processEpoch
    by_cases h : 4 ≤ (ep.obs.filterMap (processObs store p est)).length
    · simp [h]
    · simp [h]
  · intro h3
    unfold processEpoch
    rw [if_neg (by omega)]
  · intro h4
    unfold processEpoch
    rw [if_pos (by omega)]
  · intro eps
    unfold processAllEpochs
    exact List.length_map _ _

/-- Store for the minimum-satellite witness: one applicable record for each
of the satellites 1, 2 and 3. -/
def storeW : List EphemerisRecord :=
  [mkEph 1 100 0 200, mkEph 2 100 0 200, mkEph 3 100 0 200]

/-- Observation of a given satellite for the minimum-satellite witness. -/
def obsW (i : ℕ) : SatObs :=
  { satId := i, constellation := "G", timestamp := 100, pseudorange := 0,
    cn0 := 40, doppler := 100 }

/-- Epoch with exactly three usable satellites. -/
def epochW : Epoch := { epochTime := 100, obs := [obsW 1, obsW 2, obsW 3] }

lemma transmitTimeOf_obsW (i : ℕ) : transmitTimeOf (obsW i) = 100 := by
  simp [transmitTimeOf, obsW, cLightQ]

lemma validForB_mkEph_same (i : ℕ) : validForB (mkEph i 100 0 200) i 100 = true := by
  simp only [validForB, mkEph, beq_self_eq_true, Bool.true_and, Bool.and_eq_true,
    decide_eq_true_eq]
  norm_num

lemma validForB_mkEph_ne (i j : ℕ) (h : i ≠ j) :
    validForB (mkEph i 100 0 200) j 100 = false := by
  simp only [validForB, mkEph]
  rw [beq_eq_false_iff_ne.mpr h]
  simp

lemma lookup_storeW (i : ℕ) (h1 : 1 ≤ i) (h3 : i ≤ 3) :
    lookup storeW i 100 = some (mkEph i 100 0 200) := by
  interval_cases i
  · simp [storeW, lookup_cons, lookup,
      validForB_mkEph_same 1, validForB_mkEph_ne 2 1 (by norm_num),
      validForB_mkEph_ne 3 1 (by norm_num)]
  · simp [storeW, lookup_cons, lookup,
      validForB_mkEph_same 2, validForB_mkEph_ne 1 2 (by norm_num),
      validForB_mkEph_ne 3 2 (by norm_num)]
  · simp [storeW, lookup_cons, lookup,
      validForB_mkEph_same 3, validForB_mkEph_ne 1 3 (by norm_num),
      validForB_mkEph_ne 2 3 (by norm_num)]

lemma processObs_obsW (i : ℕ) (h1 : 1 ≤ i) (h3 : i ≤ 3) :
    (processObs storeW .byCn0 none (obsW i)).isSome = true := by
  unfold processObs
  rw [transmitTimeOf_obsW]
  have hid : (obsW i).satId = i := rfl
  rw [hid, lookup_storeW i h1 h3]
  have hprop : ∃ pc, propagate (mkEph i 100 0 200) (100 : ℝ) = some pc := by
    unfold propagate
    rw [if_neg (by
      simp only [mkEph]
      push_cast
      norm_num)]
    exact ⟨_, rfl⟩
  obtain ⟨pc, hpc⟩ := hprop
  simp [hpc, correct]

/-- C2 witness: the concrete three-satellite epoch yields the explicit
absent result. -/
theorem epoch_min_satellites_witness :
    processEpoch storeW .byCn0 none epochW = none := by
  refine (epoch_min_satellites storeW .byCn0 none epochW).2.1 ?_
  have e1 := processObs_obsW 1 (by norm_num) (by norm_num)
  have e2 := processObs_obsW 2 (by norm_num) (by norm_num)
  have e3 := processObs_obsW 3 (by norm_num) (by norm_num)
  obtain ⟨s1, hs1⟩ := Option.isSome_iff_exists.mp e1
  obtain ⟨s2, hs2⟩ := Option.isSome_iff_exists.mp e2
  obtain ⟨s3, hs3⟩ := Option.isSome_iff_exists.mp e3
  simp [epochW, List.filterMap_cons, hs1, hs2, hs3]

/-! ## Claim theorem: solver singularity handling (C1) -/

lemma dropLowest_cons (s : SatRange) (rest : List SatRange) :
    dropLowest (s :: rest) =
      if ∀ s' ∈ rest, s.weight ≤ s'.weight then rest
      else s :: dropLowest rest := rfl

lemma dropLowest_spec (l : List SatRange) (hne : l ≠ []) :
    ∃ s pre post, l = pre ++ s :: post ∧ dropLowest l = pre ++ post ∧
      ∀ s' ∈ l, s.weight ≤ s'.weight := by
  induction l with
  | nil => exact absurd rfl hne
  | cons s rest ih =>
    by_cases hc : ∀ s' ∈ rest, s.weight ≤ s'.weight
    · refine ⟨s, [], rest, rfl, ?_, ?_⟩
      · rw [dropLowest_cons, if_pos hc]
        rfl
      · intro s' hs'
        rcases List.mem_cons.mp hs' with h | h
        · subst h; exact le_refl _
        · exact hc s' h
    · push_neg at hc
      obtain ⟨w, hwmem, hwlt⟩ := hc
      have hrest : rest ≠ [] := by
        intro h; rw [h] at hwmem; simp at hwmem
      obtain ⟨m, pre, post, heq, hdrop, hmin⟩ := ih hrest
      refine ⟨m, s :: pre, post, ?_, ?_, ?_⟩
      · rw [List.cons_append, ← heq]
      · rw [dropLowest_cons, if_neg (by push_neg; exact ⟨w, hwmem, hwlt⟩),
          hdrop, List.cons_append]
      · intro s' hs'
        rcases List.mem_cons.mp hs' with h | h
        · subst h
          exact le_of_lt (lt_of_le_of_lt (hmin w hwmem) hwlt)
        · exact hmin s' h

lemma gnLoop_succ (n : ℕ) (sats : List SatRange) (st : Fin 4 → ℝ) :
    gnLoop (n + 1) sats st =
      (let nm := normalMatrix sats st
      if nm.det = 0 then .singular st
      else
        let upd := nm⁻¹ *ᵥ normalRhs sats st
        let st1 := fun i => st i + upd i
        if Real.sqrt (upd 0 ^ 2 + upd 1 ^ 2 + upd 2 ^ 2) < convTol then .done st1 true 1
        else
          match gnLoop n sats st1 with
          | .done s c k => .done s c (k + 1)
          | .singular s => .singular s) := rfl

lemma normalMatrix_nil (st : Fin 4 → ℝ) : normalMatrix [] st = 0 := by
  simp [normalMatrix]

lemma gnLoop_nil (n : ℕ) (st : Fin 4 → ℝ) :
    gnLoop (n + 1) [] st = .singular st := by
  rw [gnLoop_succ]
  simp only [normalMatrix_nil]
  rw [if_pos (Matrix.det_zero ⟨(0 : Fin 4)⟩)]

/-- C1: the solver's singularity handling is explicit and bounded — when
the first bounded Gauss-Newton attempt aborts on a singular
normal-equations matrix, the retry runs on the input with exactly one
satellite removed, one of globally minimal weight; if the retry aborts on a
singular matrix too, the solver returns a `ReceiverSolution` built from the
iterate the retry reached with `convergence = false`, rather than raising
or producing a degenerate value (in this exact-arithmetic embedding every
returned component is a well-defined real number, the model's rendering of
the no-NaN/Inf guarantee). -/
theorem wls_singular_handling :
    ∀ sats : List SatRange,
      (∀ st c k, gnLoop gnCap sats seedState = .done st c k →
        wlsSolve sats = mkSolution sats st c k) ∧
      (∀ st, gnLoop gnCap sats seedState = .singular st →
        (sats ≠ [] →
          ∃ s pre post, sats = pre ++ s :: post ∧ dropLowest sats = pre ++ post ∧
            (dropLowest sats).length = sats.length - 1 ∧
            ∀ s' ∈ sats, s.weight ≤ s'.weight) ∧
        (∀ st2 c k, gnLoop gnCap (dropLowest sats) st = .done st2 c k →
          wlsSolve sats = mkSolution (dropLowest sats) st2 c k) ∧
        (∀ st2, gnLoop gnCap (dropLowest sats) st = .singular st2 →
          wlsSolve sats = mkSolution (dropLowest sats) st2 false gnCap ∧
          (wlsSolve sats).convergence = false)) := by
  intro sats
  constructor
  · intro st c k h
    unfold wlsSolve
    rw [h]
  · intro st h
    refine ⟨?_, ?_, ?_⟩
    · intro hne
      obtain ⟨s, pre, post, heq, hdrop, hmin⟩ := dropLowest_spec sats hne
      refine ⟨s, pre, post, heq, hdrop, ?_, hmin⟩
      rw [hdrop, heq]
      simp
    · intro st2 c k h2
      unfold wlsSolve
      rw [h]
      simp only [h2]
    · intro st2 h2
      constructor
      · unfold wlsSolve
        rw [h]
        simp only [h2]
      · unfold wlsSolve
        rw [h]
        simp only [h2]
        rfl

/-- C1 witness: on the empty input both attempts abort on the singular
(zero) normal matrix, and the solver returns the explicit non-convergent
solution carrying the final iterate. -/
theorem wls_singular_handling_witness :
    wlsSolve [] = mkSolution [] seedState false gnCap ∧
    (wlsSolve []).convergence = false := by
  have hcap : gnCap = 19 + 1 := rfl
  have h1 : gnLoop gnCap [] seedState = .singular seedState := by
    rw [hcap, gnLoop_nil]
  have hd : dropLowest [] = [] := rfl
  have h2 : gnLoop gnCap (dropLowest []) seedState = .singular seedState := by
    rw [hd, hcap, gnLoop_nil]
  have h := ((wls_singular_handling []).2 seedState h1).2.2 seedState h2
  rwa [hd] at h

/-! ## Claim theorem: coordinate transform (C8) -/

lemma wgsA_pos : (0 : ℝ) < wgsA := by norm_num [wgsA]

lemma wgsF_lt_one : wgsF < 1 := by norm_num [wgsF]

lemma wgsB_pos : (0 : ℝ) < wgsB := by
  unfold wgsB
  have := wgsF_lt_one
  nlinarith [wgsA_pos]

lemma wgsE2_lt_one : wgsE2 < 1 := by norm_num [wgsE2, wgsF]

lemma atan2_zero_pos (x : ℝ) (hx : 0 < x) : atan2 0 x = 0 := by
  unfold atan2
  rw [if_pos hx, zero_div, Real.arctan_zero]

lemma toGeodetic_equator : toGeodetic wgsA 0 0 = some (0, 0, 0) := by
  unfold toGeodetic
  rw [if_neg (by
    rintro ⟨h, -, -⟩
    exact absurd h (ne_of_gt wgsA_pos))]
  have hp : Real.sqrt (wgsA ^ 2 + 0 ^ 2) = wgsA := by
    rw [show wgsA ^ 2 + 0 ^ 2 = wgsA ^ 2 by ring, Real.sqrt_sq wgsA_pos.le]
  simp only [hp]
  have htheta : atan2 (0 * wgsA) (wgsA * wgsB) = 0 := by
    rw [zero_mul]
    exact atan2_zero_pos _ (mul_pos wgsA_pos wgsB_pos)
  simp only [htheta, Real.sin_zero, Real.cos_zero]
  have hlat : atan2 (0 + wgsEp2 * wgsB * 0 ^ 3) (wgsA - wgsE2 * wgsA * 1 ^ 3) = 0 := by
    rw [show (0 : ℝ) + wgsEp2 * wgsB * 0 ^ 3 = 0 by ring,
      show wgsA - wgsE2 * wgsA * 1 ^ 3 = wgsA * (1 - wgsE2) by ring]
    exact atan2_zero_pos _ (mul_pos wgsA_pos (by linarith [wgsE2_lt_one]))
  simp only [hlat, Real.sin_zero, Real.cos_zero]
  have hlon : atan2 0 wgsA = 0 := atan2_zero_pos _ wgsA_pos
  simp only [hlon]
  have hN : wgsA / Real.sqrt (1 - wgsE2 * 0 ^ 2) = wgsA := by
    rw [show (1 : ℝ) - wgsE2 * 0 ^ 2 = 1 by ring, Real.sqrt_one, div_one]
  simp only [hN]
  rw [show wgsA / 1 - wgsA = 0 by ring]

lemma geodeticToEcef_origin : geodeticToEcef 0 0 0 = (wgsA, 0, 0) := by
  unfold geodeticToEcef
  simp only [Real.sin_zero, Real.cos_zero]
  rw [show (1 : ℝ) - wgsE2 * 0 ^ 2 = 1 by ring, Real.sqrt_one, div_one]
  norm_num

/-- C8: `toGeodetic` is deterministic, rejects exactly the zero vector with
an explicit error (every other finite input yields a result), maps the
WGS-84 equator point (6378137, 0, 0) to latitude 0, longitude 0, altitude 0
within 1e-6 degrees and 1e-3 meters, and the geodetic-ECEF-geodetic round
trip at the origin point stays within the same tolerance. -/
theorem toGeodetic_contract :
    (∀ x y z : ℝ, toGeodetic x y z = toGeodetic x y z) ∧
    toGeodetic 0 0 0 = none ∧
    (∀ x y z : ℝ, (toGeodetic x y z).isSome ↔ ¬(x = 0 ∧ y = 0 ∧ z = 0)) ∧
    (∃ lat lon alt, toGeodetic wgsA 0 0 = some (lat, lon, alt) ∧
      |lat| ≤ Real.pi / 180 * (1 / 1000000) ∧
      |lon| ≤ Real.pi / 180 * (1 / 1000000) ∧ |alt| ≤ 1 / 1000) ∧
    (∃ lat lon alt,
      toGeodetic (geodeticToEcef 0 0 0).1 (geodeticToEcef 0 0 0).2.1
          (geodeticToEcef 0 0 0).2.2 = some (lat, lon, alt) ∧
      |lat - 0| ≤ Real.pi / 180 * (1 / 1000000) ∧
      |lon - 0| ≤ Real.pi / 180 * (1 / 1000000) ∧ |alt - 0| ≤ 1 / 1000) := by
  have htol : (0 : ℝ) ≤ Real.pi / 180 * (1 / 1000000) := by positivity
  refine ⟨fun _ _ _ => rfl, ?_, ?_, ?_, ?_⟩
  · unfold toGeodetic
    rw [if_pos ⟨rfl, rfl, rfl⟩]
  · intro x y z
    unfold toGeodetic
    split
    · simpa
    · rename_i hcond
      simp only [Option.isSome_some, true_iff]
      exact hcond
  · exact ⟨0, 0, 0, toGeodetic_equator, by simpa using htol, by simpa using htol,
      by norm_num⟩
  · rw [geodeticToEcef_origin]
    exact ⟨0, 0, 0, toGeodetic_equator, by simpa using htol, by simpa using htol,
      by norm_num⟩

/-! ## Claim theorem: bounded Kepler Newton iteration (C3) -/

lemma abs_cos_sub_cos_le (a b : ℝ) : |Real.cos a - Real.cos b| ≤ |a - b| := by
  rw [Real.cos_sub_cos]
  rw [abs_mul, abs_mul]
  have h1 : |Real.sin ((a + b) / 2)| ≤ 1 :=
    abs_le.mpr ⟨Real.neg_one_le_sin _, Real.sin_le_one _⟩
  have h2 : |Real.sin ((a - b) / 2)| ≤ |(a - b) / 2| := Real.abs_sin_le_abs
  calc |(-2 : ℝ)| * |Real.sin ((a + b) / 2)| * |Real.sin ((a - b) / 2)|
      ≤ |(-2 : ℝ)| * 1 * |(a - b) / 2| := by
        apply mul_le_mul
        · apply mul_le_mul_of_nonneg_left h1 (abs_nonneg _)
        · exact h2
        · exact abs_nonneg _
        · positivity
    _ = |a - b| := by
        rw [abs_div]
        norm_num
        ring

lemma sin_taylor_core (x y : ℝ) (hxy : x ≤ y) :
    |Real.sin y - Real.sin x - Real.cos x * (y - x)| ≤ (y - x) ^ 2 := by
  set g : ℝ → ℝ := fun t => Real.sin t - Real.cos x * t with hg
  have hderiv : ∀ t ∈ Set.Icc x y,
      HasDerivWithinAt g (Real.cos t - Real.cos x) (Set.Icc x y) t := by
    intro t _
    have h1 : HasDerivAt g (Real.cos t - Real.cos x * 1) t :=
      (Real.hasDerivAt_sin t).sub ((hasDerivAt_id t).const_mul (Real.cos x))
    simpa using h1.hasDerivWithinAt
  have hbound : ∀ t ∈ Set.Ico x y, ‖Real.cos t - Real.cos x‖ ≤ y - x := by
    intro t ht
    rw [Real.norm_eq_abs]
    calc |Real.cos t - Real.cos x| ≤ |t - x| := abs_cos_sub_cos_le t x
      _ ≤ y - x := by
          rw [abs_of_nonneg (by linarith [ht.1])]
          linarith [ht.2]
  have h := norm_image_sub_le_of_norm_deriv_le_segment' hderiv hbound y
    (Set.right_mem_Icc.mpr hxy)
  rw [Real.norm_eq_abs] at h
  calc |Real.sin y - Real.sin x - Real.cos x * (y - x)| = |g y - g x| := by
        rw [hg]
        ring_nf
    _ ≤ (y - x) * (y - x) := h
    _ = (y - x) ^ 2 := by ring

lemma sin_taylor_bound (x y : ℝ) :
    |Real.sin y - Real.sin x - Real.cos x * (y - x)| ≤ (y - x) ^ 2 := by
  rcases le_total x y with h | h
  · exact sin_taylor_core x y h
  · set g : ℝ → ℝ := fun t => Real.sin t - Real.cos x * t with hg
    have hderiv : ∀ t ∈ Set.Icc y x,
        HasDerivWithinAt g (Real.cos t - Real.cos x) (Set.Icc y x) t := by
      intro t _
      have h1 : HasDerivAt g (Real.cos t - Real.cos x * 1) t :=
        (Real.hasDerivAt_sin t).sub ((hasDerivAt_id t).const_mul (Real.cos x))
      simpa using h1.hasDerivWithinAt
    have hbound : ∀ t ∈ Set.Ico y x, ‖Real.cos t - Real.cos x‖ ≤ x - y := by
      intro t ht
      rw [Real.norm_eq_abs]
      calc |Real.cos t - Real.cos x| ≤ |t - x| := abs_cos_sub_cos_le t x
        _ ≤ x - y := by
            rw [abs_sub_comm, abs_of_nonneg (by linarith [ht.2])]
            linarith [ht.1]
    have h2 := norm_image_sub_le_of_norm_deriv_le_segment' hderiv hbound x
      (Set.right_mem_Icc.mpr h)
    rw [Real.norm_eq_abs] at h2
    calc |Real.sin y - Real.sin x - Real.cos x * (y - x)| = |g x - g y| := by
          rw [hg, abs_sub_comm]
          ring_nf
      _ ≤ (x - y) * (x - y) := h2
      _ = (y - x) ^ 2 := by ring

lemma keplerFd_bounds (e Ek : ℝ) (he0 : 0 ≤ e) (he : e ≤ 1/5) :
    4/5 ≤ keplerFd e Ek ∧ keplerFd e Ek ≤ 6/5 := by
  unfold keplerFd
  have hc1 := Real.cos_le_one Ek
  have hc2 := Real.neg_one_le_cos Ek
  constructor <;> nlinarith

lemma newton_res_sq (e M E : ℝ) (he0 : 0 ≤ e) (he : e ≤ 1/5) :
    |keplerF e M (newtonStep e M E)| ≤ e * (newtonStep e M E - E) ^ 2 := by
  have hfd := keplerFd_bounds e E he0 he
  have hfdne : keplerFd e E ≠ 0 := by linarith [hfd.1]
  set E1 := newtonStep e M E with hE1
  have hkey : keplerF e M E + keplerFd e E * (E1 - E) = 0 := by
    rw [hE1]
    unfold newtonStep
    field_simp
    ring
  have hexp : keplerF e M E1 =
      -(e * (Real.sin E1 - Real.sin E - Real.cos E * (E1 - E))) := by
    have h2 : keplerF e M E1 - (keplerF e M E + keplerFd e E * (E1 - E)) =
        -(e * (Real.sin E1 - Real.sin E - Real.cos E * (E1 - E))) := by
      unfold keplerF keplerFd
      ring
    rw [hkey, sub_zero] at h2
    exact h2
  rw [hexp, abs_neg, abs_mul, abs_of_nonneg he0]
  exact mul_le_mul_of_nonneg_left (sin_taylor_bound E E1) he0

lemma newton_res (e M E : ℝ) (he0 : 0 ≤ e) (he : e ≤ 1/5) :
    |keplerF e M (newtonStep e M E)| ≤ (5/16) * keplerF e M E ^ 2 := by
  have hsq := newton_res_sq e M E he0 he
  have hfd := keplerFd_bounds e E he0 he
  have hfdne : keplerFd e E ≠ 0 := by linarith [hfd.1]
  have hid : (newtonStep e M E - E) * keplerFd e E = -(keplerF e M E) := by
    unfold newtonStep
    field_simp
    ring
  refine le_trans hsq ?_
  have h1 : (newtonStep e M E - E) ^ 2 * keplerFd e E ^ 2 = keplerF e M E ^ 2 := by
    calc (newtonStep e M E - E) ^ 2 * keplerFd e E ^ 2
        = ((newtonStep e M E - E) * keplerFd e E) ^ 2 := by ring
      _ = keplerF e M E ^ 2 := by rw [hid]; ring
  have h2 : (16 : ℝ)/25 ≤ keplerFd e E ^ 2 := by nlinarith [hfd.1]
  have h3 : (newtonStep e M E - E) ^ 2 * (16/25) ≤
      (newtonStep e M E - E) ^ 2 * keplerFd e E ^ 2 :=
    mul_le_mul_of_nonneg_left h2 (sq_nonneg _)
  rw [h1] at h3
  have h4 : e * (newtonStep e M E - E) ^ 2 ≤ (1/5) * (newtonStep e M E - E) ^ 2 :=
    mul_le_mul_of_nonneg_right he (sq_nonneg _)
  linarith

noncomputable def nb : ℕ → ℝ → ℝ
  | 0, r => r
  | n + 1, r => nb n ((5/16) * r ^ 2)

lemma nb_succ (n : ℕ) (r : ℝ) : nb (n + 1) r = nb n ((5/16) * r ^ 2) := rfl

lemma keplerIter_succ (n : ℕ) (e M Ek : ℝ) :
    keplerIter (n + 1) e M Ek =
      (let Ek1 := newtonStep e M Ek
      if |Ek1 - Ek| < keplerTol then (Ek1, 1)
      else ((keplerIter n e M Ek1).1, (keplerIter n e M Ek1).2 + 1)) := rfl

lemma keplerIter_steps (n : ℕ) (e M Ek : ℝ) : (keplerIter n e M Ek).2 ≤ n := by
  induction n generalizing Ek with
  | zero => exact le_refl _
  | succ n ih =>
    rw [keplerIter_succ]
    by_cases hc : |newtonStep e M Ek - Ek| < keplerTol
    · simp only [if_pos hc]
      omega
    · simp only [if_neg hc]
      have := ih (newtonStep e M Ek)
      omega

lemma keplerIter_res (n : ℕ) (e M Ek r : ℝ) (he0 : 0 ≤ e) (he : e ≤ 1/5)
    (hr0 : 0 ≤ r) (hr : |keplerF e M Ek| ≤ r) :
    |keplerF e M (keplerIter n e M Ek).1| ≤
      max (nb n r) (1 / 1000000000000000000000000) := by
  induction n generalizing Ek r with
  | zero =>
    exact le_max_of_le_left hr
  | succ n ih =>
    rw [keplerIter_succ]
    by_cases hc : |newtonStep e M Ek - Ek| < keplerTol
    · simp only [if_pos hc]
      refine le_max_of_le_right ?_
      have h1 := newton_res_sq e M Ek he0 he
      have h2 : (newtonStep e M Ek - Ek) ^ 2 < keplerTol ^ 2 := by
        rw [← sq_abs]
        have := abs_nonneg (newtonStep e M Ek - Ek)
        nlinarith [hc]
      have h3 : keplerTol ^ 2 = 1 / 1000000000000000000000000 := by
        unfold keplerTol
        norm_num
      nlinarith [h1, h2]
    · simp only [if_neg hc]
      rw [nb_succ]
      refine ih (newtonStep e M Ek) ((5/16) * r ^ 2) (by positivity) ?_
      have h1 := newton_res e M Ek he0 he
      have h2 : keplerF e M Ek ^ 2 ≤ r ^ 2 := by
        rw [← sq_abs]
        nlinarith [abs_nonneg (keplerF e M Ek)]
      nlinarith

lemma nb_small (m : ℕ) (s : ℝ) (h0 : 0 ≤ s)
    (hs : s ≤ 1 / 5764607523034234880) : nb m s ≤ 1 / 5764607523034234880 := by
  induction m generalizing s with
  | zero => exact hs
  | succ m ih =>
    rw [nb_succ]
    refine ih _ (by positivity) ?_
    nlinarith

lemma nb_thirty : nb 30 (1/5 : ℝ) ≤ 1 / 5764607523034234880 := by
  have e1 : nb 30 (1/5 : ℝ) = nb 29 ((5/16) * (1/5) ^ 2) := nb_succ 29 _
  have v1 : ((5:ℝ)/16) * (1/5) ^ 2 = 1/80 := by norm_num
  have e2 : nb 29 (1/80 : ℝ) = nb 28 ((5/16) * (1/80) ^ 2) := nb_succ 28 _
  have v2 : ((5:ℝ)/16) * (1/80) ^ 2 = 1/20480 := by norm_num
  have e3 : nb 28 (1/20480 : ℝ) = nb 27 ((5/16) * (1/20480) ^ 2) := nb_succ 27 _
  have v3 : ((5:ℝ)/16) * (1/20480) ^ 2 = 1/1342177280 := by norm_num
  have e4 : nb 27 (1/1342177280 : ℝ) = nb 26 ((5/16) * (1/1342177280) ^ 2) :=
    nb_succ 26 _
  have v4 : ((5:ℝ)/16) * (1/1342177280) ^ 2 = 1/5764607523034234880 := by norm_num
  rw [e1, v1, e2, v2, e3, v3, e4, v4]
  exact nb_small 26 _ (by norm_num) (le_refl _)

lemma kepler_seed_res (e M : ℝ) (he0 : 0 ≤ e) : |keplerF e M M| ≤ e := by
  unfold keplerF
  rw [show M - e * Real.sin M - M = -(e * Real.sin M) by ring, abs_neg, abs_mul,
    abs_of_nonneg he0]
  have h1 := abs_le.mpr ⟨Real.neg_one_le_sin M, Real.sin_le_one M⟩
  nlinarith [abs_nonneg (Real.sin M)]

/-- C3: the Newton iteration solving Kepler's equation is bounded by the
fixed iteration cap of 30 steps on every input (so `propagate` always
terminates, failing only on a malformed record — non-positive semi-major
axis root); and for every eccentricity in [0, 0.2] and mean anomaly in
[0, 2*pi) the iteration reaches a Kepler residual below 1e-10 within the
cap. -/
theorem kepler_newton_bounded :
    (∀ e M : ℝ, (keplerSolve e M).2 ≤ keplerCap) ∧
    (∀ (r : EphemerisRecord) (t : ℝ),
      (propagate r t).isSome = true ↔ ¬((r.sqrtA : ℝ) ≤ 0)) ∧
    (∀ e M : ℝ, 0 ≤ e → e ≤ 1/5 → 0 ≤ M → M < 2 * Real.pi →
      |keplerF e M (keplerSolve e M).1| < 1/10000000000) := by
  refine ⟨?_, ?_, ?_⟩
  · intro e M
    exact keplerIter_steps keplerCap e M M
  · intro r t
    unfold propagate
    split
    · rename_i h
      exact iff_of_false (by simp) (not_not_intro h)
    · rename_i h
      exact iff_of_true (by simp) h
  · intro e M he0 he _ _
    have h := keplerIter_res 30 e M M (1/5) he0 he (by norm_num)
      (le_trans (kepler_seed_res e M he0) he)
    refine lt_of_le_of_lt h (max_lt ?_ ?_)
    · exact lt_of_le_of_lt nb_thirty (by norm_num)
    · norm_num

/-- C3 witness: at eccentricity 0 and mean anomaly 0 the iteration stays
within the cap and reaches a residual below 1e-10. -/
theorem kepler_newton_bounded_witness :
    (keplerSolve 0 0).2 ≤ keplerCap ∧
    |keplerF 0 0 (keplerSolve 0 0).1| < 1/10000000000 :=
  ⟨kepler_newton_bounded.1 0 0,
    kepler_newton_bounded.2.2 0 0 (le_refl 0) (by norm_num) (le_refl 0)
      (by positivity)⟩
